import Mathlib

/-!
Verification of the SSE streaming client and the slash-command parser of the
gemini-2-5-studio repository.

The embedding follows `streamGeminiChat` from `src/unnamed/part_001` (the
variant in `src/src/lib/gemini.ts` differs only in omitting the metadata,
thinking and thought-summary events and the empty-payload check) and
`CommandParser` from `src/unnamed/part_000`.

JavaScript strings are modelled as lists of code points (`List Nat`), byte
streams as lists of bytes (`List Nat`).  The platform builtins used by the
source (`TextDecoder` in streaming mode on well-formed UTF-8 input,
`JSON.parse`, `String.prototype.split` and friends) are modelled directly.
-/

namespace SSE

/-- Code-point list of a Lean string literal, used to write JS strings. -/
def strD (s : String) : List Nat := s.data.map Char.toNat

/-- A JSON value as produced by `JSON.parse`.  Numbers keep their sign and
digit lists (integer part, fraction part, exponent sign and digits): the only
observation the client makes of a number is JS truthiness, i.e. zero-ness. -/
inductive Json where
  | null : Json
  | bool (b : Bool) : Json
  | num (neg : Bool) (ip : List Nat) (fp : List Nat) (en : Bool) (ed : List Nat) : Json
  | str (s : List Nat) : Json
  | arr (elems : List Json) : Json
  | obj (fields : List (List Nat × Json)) : Json

/-- The events the decode loop can deliver to the caller: one per callback of
`GeminiStreamOptions`. -/
inductive StreamEvent where
  | token (t : Json) : StreamEvent
  | metadata (m : Json) : StreamEvent
  | thinking (b : Bool) : StreamEvent
  | thoughtSummary (s : Json) : StreamEvent
  | complete : StreamEvent
  | error (msg : List Nat) : StreamEvent

/-- Incremental UTF-8 decoding, modelling `TextDecoder.decode(value,
{stream: true})` on well-formed input: decode every complete scalar-value
sequence, return the decoded code points together with the trailing
incomplete sequence (the decoder's internal state). -/
def decodeCore : List Nat → List Nat × List Nat
  | [] => ([], [])
  | [b] =>
    if b < 192 then ([b], []) else ([], [b])
  | [b, c1] =>
    if b < 192 then
      let r := decodeCore [c1]
      (b :: r.1, r.2)
    else if b < 224 then ([(b - 192) * 64 + (c1 - 128)], [])
    else ([], [b, c1])
  | [b, c1, c2] =>
    if b < 192 then
      let r := decodeCore [c1, c2]
      (b :: r.1, r.2)
    else if b < 224 then
      let r := decodeCore [c2]
      (((b - 192) * 64 + (c1 - 128)) :: r.1, r.2)
    else if b < 240 then ([((b - 224) * 64 + (c1 - 128)) * 64 + (c2 - 128)], [])
    else ([], [b, c1, c2])
  | b :: c1 :: c2 :: c3 :: rest =>
    if b < 192 then
      let r := decodeCore (c1 :: c2 :: c3 :: rest)
      (b :: r.1, r.2)
    else if b < 224 then
      let r := decodeCore (c2 :: c3 :: rest)
      (((b - 192) * 64 + (c1 - 128)) :: r.1, r.2)
    else if b < 240 then
      let r := decodeCore (c3 :: rest)
      ((((b - 224) * 64 + (c1 - 128)) * 64 + (c2 - 128)) :: r.1, r.2)
    else
      let r := decodeCore rest
      (((((b - 240) * 64 + (c1 - 128)) * 64 + (c2 - 128)) * 64 + (c3 - 128)) :: r.1, r.2)

/-- UTF-8 encoding of one code point. -/
def encCp (n : Nat) : List Nat :=
  if n < 0x80 then [n]
  else if n < 0x800 then [0xC0 + n / 64, 0x80 + n % 64]
  else if n < 0x10000 then [0xE0 + n / 4096, 0x80 + n / 64 % 64, 0x80 + n % 64]
  else [0xF0 + n / 262144, 0x80 + n / 4096 % 64, 0x80 + n / 64 % 64, 0x80 + n % 64]

/-- UTF-8 encoding of a code-point sequence. -/
def utf8Encode (l : List Nat) : List Nat := l.flatMap encCp

/-- `buffer.split("\n")`: split a code-point list on newline (10).  Always
returns at least one segment; the last segment is the part after the last
newline. -/
def splitNL : List Nat → List (List Nat)
  | [] => [[]]
  | c :: rest =>
    if c = 10 then [] :: splitNL rest
    else (c :: (splitNL rest).headI) :: (splitNL rest).tail

theorem splitNL_ne_nil (l : List Nat) : splitNL l ≠ [] := by
  cases l with
  | nil => simp [splitNL]
  | cons c rest =>
    simp only [splitNL]
    split <;> simp

/-- Splitting a concatenation: the complete segments of `a` stay, and the
trailing segment of `a` merges into the first segment contributed by `b`. -/
theorem splitNL_append (a b : List Nat) :
    splitNL (a ++ b)
      = (splitNL a).dropLast ++ splitNL ((splitNL a).getLastD [] ++ b) := by
  induction a with
  | nil => simp [splitNL]
  | cons c rest ih =>
    obtain ⟨s, ss, hss⟩ : ∃ s ss, splitNL rest = s :: ss := by
      cases h : splitNL rest with
      | nil => exact absurd h (splitNL_ne_nil rest)
      | cons x xs => exact ⟨x, xs, rfl⟩
    by_cases hc : c = 10
    · subst hc
      rw [List.cons_append]
      simp only [splitNL, if_pos rfl]
      rw [ih, hss]
      simp [List.dropLast_cons₂, List.getLastD_cons]
    · rw [List.cons_append]
      simp only [splitNL, if_neg hc]
      rw [ih, hss]
      cases ss with
      | nil =>
        simp only [List.headI, List.tail_cons, List.dropLast_single, List.nil_append,
          List.getLastD_cons, List.getLastD_nil, List.cons_append, List.append_eq,
          splitNL, if_neg hc]
      | cons s2 ss2 =>
        simp [List.dropLast_cons₂, List.getLastD_cons, List.headI]

theorem decodeCore_nil : decodeCore [] = ([], []) := rfl

theorem decodeCore_c1 (b : Nat) (rest : List Nat) (h : b < 192) :
    decodeCore (b :: rest) = (b :: (decodeCore rest).1, (decodeCore rest).2) := by
  match rest with
  | [] => simp only [decodeCore]; rw [if_pos h]
  | [c1] => simp only [decodeCore]; rw [if_pos h]
  | [c1, c2] => simp only [decodeCore]; rw [if_pos h]
  | c1 :: c2 :: c3 :: r => simp only [decodeCore]; rw [if_pos h]

theorem decodeCore_c2 (b c1 : Nat) (rest : List Nat) (h1 : ¬ b < 192) (h2 : b < 224) :
    decodeCore (b :: c1 :: rest)
      = (((b - 192) * 64 + (c1 - 128)) :: (decodeCore rest).1, (decodeCore rest).2) := by
  match rest with
  | [] => simp only [decodeCore]; rw [if_neg h1, if_pos h2]
  | [c2] => simp only [decodeCore]; rw [if_neg h1, if_pos h2]
  | c2 :: c3 :: r => simp only [decodeCore]; rw [if_neg h1, if_pos h2]

theorem decodeCore_c3 (b c1 c2 : Nat) (rest : List Nat)
    (h1 : ¬ b < 192) (h2 : ¬ b < 224) (h3 : b < 240) :
    decodeCore (b :: c1 :: c2 :: rest)
      = ((((b - 224) * 64 + (c1 - 128)) * 64 + (c2 - 128)) :: (decodeCore rest).1,
         (decodeCore rest).2) := by
  match rest with
  | [] => simp only [decodeCore]; rw [if_neg h1, if_neg h2, if_pos h3]
  | c3 :: r => simp only [decodeCore]; rw [if_neg h1, if_neg h2, if_pos h3]

theorem decodeCore_c4 (b c1 c2 c3 : Nat) (rest : List Nat)
    (h1 : ¬ b < 192) (h2 : ¬ b < 224) (h3 : ¬ b < 240) :
    decodeCore (b :: c1 :: c2 :: c3 :: rest)
      = (((((b - 240) * 64 + (c1 - 128)) * 64 + (c2 - 128)) * 64 + (c3 - 128))
           :: (decodeCore rest).1,
         (decodeCore rest).2) := by
  simp only [decodeCore]
  rw [if_neg h1, if_neg h2, if_neg h3]

theorem decodeCore_i1 (b : Nat) (h1 : ¬ b < 192) :
    decodeCore [b] = ([], [b]) := by
  simp only [decodeCore]
  rw [if_neg h1]

theorem decodeCore_i2 (b c1 : Nat) (h1 : ¬ b < 192) (h2 : ¬ b < 224) :
    decodeCore [b, c1] = ([], [b, c1]) := by
  simp only [decodeCore]
  rw [if_neg h1, if_neg h2]

theorem decodeCore_i3 (b c1 c2 : Nat) (h1 : ¬ b < 192) (h2 : ¬ b < 224) (h3 : ¬ b < 240) :
    decodeCore [b, c1, c2] = ([], [b, c1, c2]) := by
  simp only [decodeCore]
  rw [if_neg h1, if_neg h2, if_neg h3]

/-- Decoding a concatenation: decode the first part, then resume from the
decoder state on the second part. -/
theorem decodeCore_append (x y : List Nat) :
    decodeCore (x ++ y)
      = ((decodeCore x).1 ++ (decodeCore ((decodeCore x).2 ++ y)).1,
         (decodeCore ((decodeCore x).2 ++ y)).2) := by
  induction x using decodeCore.induct <;>
    simp_all [decodeCore_nil, decodeCore_c1, decodeCore_c2, decodeCore_c3, decodeCore_c4,
      decodeCore_i1, decodeCore_i2, decodeCore_i3]

/-- The decoder state is a trailing incomplete sequence: feeding it alone
decodes nothing. -/
theorem decodeCore_snd_fix (x : List Nat) :
    decodeCore (decodeCore x).2 = ([], (decodeCore x).2) := by
  induction x using decodeCore.induct <;>
    simp_all [decodeCore_nil, decodeCore_c1, decodeCore_c2, decodeCore_c3, decodeCore_c4,
      decodeCore_i1, decodeCore_i2, decodeCore_i3]

/-- The decoded text of each chunk, threading the decoder state, modelling
the successive `decoder.decode(value, {stream: true})` calls. -/
def chunkTexts : List Nat → List (List Nat) → List (List Nat)
  | _, [] => []
  | p, v :: rest => (decodeCore (p ++ v)).1 :: chunkTexts (decodeCore (p ++ v)).2 rest

theorem chunkTexts_flatten (chunks : List (List Nat)) (p : List Nat)
    (hp : decodeCore p = ([], p)) :
    (chunkTexts p chunks).flatten = (decodeCore (p ++ chunks.flatten)).1 := by
  induction chunks generalizing p with
  | nil => simp [chunkTexts, hp]
  | cons v rest ih =>
    calc (chunkTexts p (v :: rest)).flatten
        = (decodeCore (p ++ v)).1 ++ (chunkTexts (decodeCore (p ++ v)).2 rest).flatten := by
          simp [chunkTexts]
      _ = (decodeCore (p ++ v)).1
            ++ (decodeCore ((decodeCore (p ++ v)).2 ++ rest.flatten)).1 := by
          rw [ih _ (decodeCore_snd_fix (p ++ v))]
      _ = (decodeCore ((p ++ v) ++ rest.flatten)).1 := by
          rw [decodeCore_append (p ++ v) rest.flatten]
      _ = (decodeCore (p ++ (v :: rest).flatten)).1 := by
          simp [List.append_assoc]

/-! ### A model of `JSON.parse` -/

/-- JSON whitespace. -/
def jsonWs (c : Nat) : Bool := c = 32 || c = 9 || c = 10 || c = 13

def skipWs (l : List Nat) : List Nat := l.dropWhile jsonWs

def isDigit (c : Nat) : Bool := 48 ≤ c && c ≤ 57

/-- A run of decimal digits: their values and the remaining input. -/
def digitsRun : List Nat → List Nat × List Nat
  | [] => ([], [])
  | c :: rest =>
    if isDigit c then
      let r := digitsRun rest
      ((c - 48) :: r.1, r.2)
    else ([], c :: rest)

def hexVal (c : Nat) : Option Nat :=
  if 48 ≤ c ∧ c ≤ 57 then some (c - 48)
  else if 97 ≤ c ∧ c ≤ 102 then some (c - 87)
  else if 65 ≤ c ∧ c ≤ 70 then some (c - 55)
  else none

/-- Translation of a single-character escape. -/
def escChar (e : Nat) : Option Nat :=
  if e = 34 then some 34
  else if e = 92 then some 92
  else if e = 47 then some 47
  else if e = 98 then some 8
  else if e = 102 then some 12
  else if e = 110 then some 10
  else if e = 114 then some 13
  else if e = 116 then some 9
  else none

/-- Parse the body of a JSON string literal (after the opening quote):
escapes, `\uXXXX` with surrogate-pair combination, rejection of raw control
characters.  Returns the decoded code points and the input after the closing
quote. -/
def parseJStr : Nat → List Nat → Option (List Nat × List Nat)
  | 0, _ => none
  | _, [] => none
  | fuel + 1, c :: rest =>
    if c = 34 then some ([], rest)
    else if c = 92 then
      match rest with
      | [] => none
      | e :: rest2 =>
        if e = 117 then
          match rest2 with
          | h1 :: h2 :: h3 :: h4 :: rest3 =>
            match hexVal h1, hexVal h2, hexVal h3, hexVal h4 with
            | some v1, some v2, some v3, some v4 =>
              let n := ((v1 * 16 + v2) * 16 + v3) * 16 + v4
              if 0xD800 ≤ n ∧ n ≤ 0xDBFF then
                match rest3 with
                | 92 :: 117 :: g1 :: g2 :: g3 :: g4 :: rest4 =>
                  match hexVal g1, hexVal g2, hexVal g3, hexVal g4 with
                  | some w1, some w2, some w3, some w4 =>
                    let m := ((w1 * 16 + w2) * 16 + w3) * 16 + w4
                    if 0xDC00 ≤ m ∧ m ≤ 0xDFFF then
                      match parseJStr fuel rest4 with
                      | some (s, r) =>
                        some ((0x10000 + (n - 0xD800) * 1024 + (m - 0xDC00)) :: s, r)
                      | none => none
                    else
                      match parseJStr fuel rest3 with
                      | some (s, r) => some (n :: s, r)
                      | none => none
                  | _, _, _, _ =>
                    match parseJStr fuel rest3 with
                    | some (s, r) => some (n :: s, r)
                    | none => none
                | _ =>
                  match parseJStr fuel rest3 with
                  | some (s, r) => some (n :: s, r)
                  | none => none
              else
                match parseJStr fuel rest3 with
                | some (s, r) => some (n :: s, r)
                | none => none
            | _, _, _, _ => none
          | _ => none
        else
          match escChar e with
          | some ec =>
            match parseJStr fuel rest2 with
            | some (s, r) => some (ec :: s, r)
            | none => none
          | none => none
    else if c < 32 then none
    else
      match parseJStr fuel rest with
      | some (s, r) => some (c :: s, r)
      | none => none

/-- An optional fraction part: only consumed when a digit follows the dot. -/
def parseFrac (l : List Nat) : List Nat × List Nat :=
  match l with
  | 46 :: r =>
    match digitsRun r with
    | ([], _) => ([], l)
    | (ds, r2) => (ds, r2)
  | _ => ([], l)

/-- An optional exponent part: only consumed when well formed. -/
def parseExp (l : List Nat) : (Bool × List Nat) × List Nat :=
  match l with
  | [] => ((false, []), [])
  | c :: rest =>
    if c = 101 || c = 69 then
      match rest with
      | 45 :: r =>
        match digitsRun r with
        | ([], _) => ((false, []), l)
        | (ds, r2) => ((true, ds), r2)
      | 43 :: r =>
        match digitsRun r with
        | ([], _) => ((false, []), l)
        | (ds, r2) => ((false, ds), r2)
      | _ =>
        match digitsRun rest with
        | ([], _) => ((false, []), l)
        | (ds, r2) => ((false, ds), r2)
    else ((false, []), l)

/-- Parse a JSON number (the input starts with `-` or a digit). -/
def parseNum (l : List Nat) : Option (Json × List Nat) :=
  let s := match l with
    | 45 :: r => (true, r)
    | _ => (false, l)
  match s.2 with
  | [] => none
  | c :: rest =>
    if c = 48 then
      let f := parseFrac rest
      let e := parseExp f.2
      some (.num s.1 [0] f.1 e.1.1 e.1.2, e.2)
    else if isDigit c then
      let d := digitsRun rest
      let f := parseFrac d.2
      let e := parseExp f.2
      some (.num s.1 ((c - 48) :: d.1) f.1 e.1.1 e.1.2, e.2)
    else none

mutual

def parseValue : Nat → List Nat → Option (Json × List Nat)
  | 0, _ => none
  | fuel + 1, input =>
    match skipWs input with
    | [] => none
    | c :: rest =>
      if c = 110 then
        if [117, 108, 108].isPrefixOf rest then some (.null, rest.drop 3) else none
      else if c = 116 then
        if [114, 117, 101].isPrefixOf rest then some (.bool true, rest.drop 3) else none
      else if c = 102 then
        if [97, 108, 115, 101].isPrefixOf rest then some (.bool false, rest.drop 4) else none
      else if c = 34 then
        match parseJStr (rest.length + 1) rest with
        | some (s, r) => some (.str s, r)
        | none => none
      else if c = 45 || isDigit c then parseNum (c :: rest)
      else if c = 91 then
        match skipWs rest with
        | 93 :: r2 => some (.arr [], r2)
        | _ =>
          match parseElems fuel rest with
          | some (es, r) => some (.arr es, r)
          | none => none
      else if c = 123 then
        match skipWs rest with
        | 125 :: r2 => some (.obj [], r2)
        | _ =>
          match parseMembers fuel rest with
          | some (fs, r) => some (.obj fs, r)
          | none => none
      else none

def parseElems : Nat → List Nat → Option (List Json × List Nat)
  | 0, _ => none
  | fuel + 1, input =>
    match parseValue fuel input with
    | none => none
    | some (v, r) =>
      match skipWs r with
      | 44 :: r2 =>
        match parseElems fuel r2 with
        | some (es, r3) => some (v :: es, r3)
        | none => none
      | 93 :: r2 => some ([v], r2)
      | _ => none

def parseMembers : Nat → List Nat → Option (List (List Nat × Json) × List Nat)
  | 0, _ => none
  | fuel + 1, input =>
    match skipWs input with
    | 34 :: r =>
      match parseJStr (r.length + 1) r with
      | none => none
      | some (k, r2) =>
        match skipWs r2 with
        | 58 :: r3 =>
          match parseValue fuel r3 with
          | none => none
          | some (v, r4) =>
            match skipWs r4 with
            | 44 :: r5 =>
              match parseMembers fuel r5 with
              | some (fs, r6) => some ((k, v) :: fs, r6)
              | none => none
            | 125 :: r5 => some ([(k, v)], r5)
            | _ => none
        | _ => none
    | _ => none

end

/-- `JSON.parse`: a complete JSON text; leftover non-whitespace is an
error. -/
def jsonParse (l : List Nat) : Option Json :=
  match parseValue (l.length + 1) l with
  | some (v, r) => if skipWs r = [] then some v else none
  | none => none

/-- JS property access `data.key` on a parsed value: objects yield the last
binding of the key (a later duplicate key overwrites an earlier one), every
other value yields `undefined`, modelled as `none`. -/
def getField (j : Json) (key : List Nat) : Option Json :=
  match j with
  | .obj fields => fields.reverse.lookup key
  | _ => none

/-- JS truthiness of a JSON value (a number is falsy exactly when its
mantissa digits are all zero). -/
def truthy : Json → Bool
  | .null => false
  | .bool b => b
  | .str s => !s.isEmpty
  | .num _ ip fp _ _ => ip.any (· != 0) || fp.any (· != 0)
  | .arr _ => true
  | .obj _ => true

/-- JS truthiness of a possibly-`undefined` value. -/
def truthyOpt : Option Json → Bool
  | none => false
  | some j => truthy j

/-! ### The decode loop -/

/-- Processing of one complete line by the decode loop of `streamGeminiChat`
(src/unnamed/part_001, lines 109-136): skip a line without the `data: `
marker, skip an empty payload, skip a payload that fails to parse, then emit
the events for the recognized fields in source order. -/
def lineEvents (line : List Nat) : List StreamEvent :=
  if (strD "data: ").isPrefixOf line then
    let jsonStr := line.drop 6
    if jsonStr.isEmpty then []
    else
      match jsonParse jsonStr with
      | none => []
      | some data =>
        (match getField data (strD "text") with
         | some t => if truthy t then [.token t] else []
         | none => []) ++
        (match getField data (strD "metadata") with
         | some m => if truthy m then [.metadata m] else []
         | none => []) ++
        (match getField data (strD "thinking") with
         | some (.bool b) => [.thinking b]
         | _ => []) ++
        (match getField data (strD "thoughtSummary") with
         | some s => if truthy s then [.thoughtSummary s] else []
         | none => [])
  else []

/-- One pass of the loop body over newly decoded text: append to the buffer,
split on newlines, process all complete lines, keep the trailing segment as
the new buffer. -/
def processText (buffer text : List Nat) : List StreamEvent × List Nat :=
  ((splitNL (buffer ++ text)).dropLast.flatMap lineEvents,
   (splitNL (buffer ++ text)).getLastD [])

/-- The read loop of `streamGeminiChat` over the successful chunk reads,
threading the `TextDecoder` state and the line buffer. -/
def loopGo : List Nat → List Nat → List (List Nat) → List StreamEvent
  | _, _, [] => []
  | p, buf, v :: rest =>
    (processText buf (decodeCore (p ++ v)).1).1 ++
      loopGo (decodeCore (p ++ v)).2 (processText buf (decodeCore (p ++ v)).1).2 rest

/-- All events the decode loop emits for a sequence of byte chunks. -/
def loopEvents (chunks : List (List Nat)) : List StreamEvent := loopGo [] [] chunks

/-! ### The surrounding function -/

/-- A JS value thrown inside the streaming code or by `fetch`: either an
`Error` (carrying its message) or some non-`Error` value. -/
inductive Thrown where
  | jsError (msg : List Nat) : Thrown
  | other : Thrown

/-- How the sequence of body reads ends: `done: true`, or a rejected read
(e.g. the `AbortError` raised when the abort signal fires mid-stream). -/
inductive ReadEnd where
  | done : ReadEnd
  | thrown (t : Thrown) : ReadEnd

/-- The response body as observed through `getReader().read()`: the chunks
of the successful reads, then how reading ended. -/
structure BodyStream where
  chunks : List (List Nat)
  ending : ReadEnd

/-- The outcome of `fetch`: a rejection (network failure, or the abort
signal firing during the request), or a response with its HTTP status and
optional body. -/
inductive FetchResult where
  | rejected (t : Thrown) : FetchResult
  | ok (status : Nat) (body : Option BodyStream) : FetchResult

/-- The message the catch block reports: the thrown `Error`'s own message,
or `"Unknown error occurred"` for a non-`Error` value. -/
def errMsg : Thrown → List Nat
  | .jsError m => m
  | .other => strD "Unknown error occurred"

/-- `streamGeminiChat` (src/unnamed/part_001, lines 41-146), as the sequence
of callback invocations it performs for a given fetch outcome: the `!ok`
status check throws `HTTP error! status: <status>`, a missing body throws
`No response body`, then the decode loop runs; `onComplete` fires on `done`,
and a rejected read reaches the catch block, which calls `onError` once. -/
def streamGeminiChat : FetchResult → List StreamEvent
  | .rejected t => [.error (errMsg t)]
  | .ok status body =>
    if 200 ≤ status ∧ status ≤ 299 then
      match body with
      | none => [.error (strD "No response body")]
      | some bs =>
        match bs.ending with
        | .done => loopEvents bs.chunks ++ [.complete]
        | .thrown t => loopEvents bs.chunks ++ [.error (errMsg t)]
    else [.error (strD "HTTP error! status: " ++ strD (toString status))]

/-- The events that correspond to the per-chunk data callbacks. -/
def isEmission : StreamEvent → Bool
  | .token _ => true
  | .metadata _ => true
  | .thinking _ => true
  | .thoughtSummary _ => true
  | _ => false

/-- The events that correspond to the terminal callbacks. -/
def isTerminal : StreamEvent → Bool
  | .complete => true
  | .error _ => true
  | _ => false

/-- The arguments passed to `onToken`, in order. -/
def tokenPayloads (evs : List StreamEvent) : List Json :=
  evs.filterMap fun ev => match ev with
    | .token t => some t
    | _ => none

/-! ### The loop is insensitive to chunk boundaries -/

theorem getLastD_append_of_ne_nil (A B : List (List Nat)) (h : B ≠ []) :
    (A ++ B).getLastD [] = B.getLastD [] := by
  cases hB : B.getLast? with
  | none => exact absurd (List.getLast?_eq_none_iff.mp hB) h
  | some x => simp [List.getLastD_eq_getLast?, List.getLast?_append, hB]

/-- Feeding `t1 ++ t2` through one pass of the loop body is the same as two
successive passes. -/
theorem processText_append (buf t1 t2 : List Nat) :
    processText buf (t1 ++ t2)
      = ((processText buf t1).1 ++ (processText (processText buf t1).2 t2).1,
         (processText (processText buf t1).2 t2).2) := by
  unfold processText
  rw [← List.append_assoc, splitNL_append (buf ++ t1) t2]
  have hne := splitNL_ne_nil ((splitNL (buf ++ t1)).getLastD [] ++ t2)
  rw [List.dropLast_append_of_ne_nil _ hne, getLastD_append_of_ne_nil _ _ hne,
    List.flatMap_append]

/-- The loop over already-decoded texts. -/
def textGo : List Nat → List (List Nat) → List StreamEvent
  | _, [] => []
  | buf, t :: ts => (processText buf t).1 ++ textGo (processText buf t).2 ts

/-- A nonempty run of the text loop equals a single pass over the
concatenated text. -/
theorem textGo_collapse (ts : List (List Nat)) (buf t : List Nat) :
    textGo buf (t :: ts) = (processText buf (t ++ ts.flatten)).1 := by
  induction ts generalizing buf t with
  | nil => simp [textGo]
  | cons t2 ts2 ih =>
    have h1 : textGo buf (t :: t2 :: ts2)
        = (processText buf t).1 ++ textGo (processText buf t).2 (t2 :: ts2) := rfl
    rw [h1, ih, List.flatten_cons, processText_append buf t (t2 ++ ts2.flatten)]

/-- The byte loop is the text loop over the per-chunk decoded texts. -/
theorem loopGo_eq_textGo (chunks : List (List Nat)) (p buf : List Nat) :
    loopGo p buf chunks = textGo buf (chunkTexts p chunks) := by
  induction chunks generalizing p buf with
  | nil => rfl
  | cons v rest ih => simp [loopGo, chunkTexts, textGo, ih]

/-- The decode loop processes exactly the complete lines of the decoded
joined byte stream, in order; the trailing segment stays in the buffer and
produces nothing. -/
theorem loopEvents_eq (chunks : List (List Nat)) :
    loopEvents chunks
      = (splitNL (decodeCore chunks.flatten).1).dropLast.flatMap lineEvents := by
  cases chunks with
  | nil => rfl
  | cons v rest =>
    rw [loopEvents, loopGo_eq_textGo, chunkTexts, textGo_collapse,
      chunkTexts_flatten rest _ (decodeCore_snd_fix ([] ++ v))]
    simp only [List.nil_append]
    rw [List.flatten_cons, decodeCore_append v rest.flatten]
    simp [processText]

/-! ### Shape of the emitted events -/

/-- Every token event of a line carries the parsed object's truthy `text`
field. -/
theorem token_mem_lineEvents (l : List Nat) (t : Json)
    (h : StreamEvent.token t ∈ lineEvents l) :
    ∃ data, jsonParse (l.drop 6) = some data
      ∧ getField data (strD "text") = some t ∧ truthy t = true := by
  unfold lineEvents at h
  by_cases h1 : (strD "data: ").isPrefixOf l
  · rw [if_pos h1] at h
    dsimp only at h
    by_cases h2 : (l.drop 6).isEmpty
    · rw [if_pos h2] at h
      simp at h
    · rw [if_neg h2] at h
      cases hj : jsonParse (l.drop 6) with
      | none => rw [hj] at h; simp at h
      | some data =>
        rw [hj] at h
        refine ⟨data, rfl, ?_⟩
        simp only [List.mem_append] at h
        rcases h with ((ha | hb) | hc) | hd
        · revert ha
          cases hf : getField data (strD "text") with
          | none => simp
          | some u =>
            by_cases hu : truthy u
            · simp only [if_pos hu, List.mem_singleton]
              intro he
              cases he
              exact ⟨rfl, hu⟩
            · simp [hu]
        · revert hb
          cases getField data (strD "metadata") with
          | none => simp
          | some u => split <;> simp
        · revert hc
          cases hg : getField data (strD "thinking") with
          | none => simp
          | some u => cases u <;> simp
        · revert hd
          cases getField data (strD "thoughtSummary") with
          | none => simp
          | some u => split <;> simp
  · rw [if_neg h1] at h
    simp at h

/-- Every event a line produces is a data event, never a terminal one. -/
theorem lineEvents_emission (l : List Nat) :
    ∀ ev ∈ lineEvents l, isEmission ev = true := by
  intro ev h
  unfold lineEvents at h
  by_cases h1 : (strD "data: ").isPrefixOf l
  · rw [if_pos h1] at h
    dsimp only at h
    by_cases h2 : (l.drop 6).isEmpty
    · rw [if_pos h2] at h
      simp at h
    · rw [if_neg h2] at h
      cases hj : jsonParse (l.drop 6) with
      | none => rw [hj] at h; simp at h
      | some data =>
        rw [hj] at h
        simp only [List.mem_append] at h
        rcases h with ((ha | hb) | hc) | hd
        · revert ha
          cases getField data (strD "text") with
          | none => simp
          | some u =>
            split <;> simp_all [isEmission]
        · revert hb
          cases getField data (strD "metadata") with
          | none => simp
          | some u =>
            split <;> simp_all [isEmission]
        · revert hc
          cases getField data (strD "thinking") with
          | none => simp
          | some u =>
            cases u <;> simp_all [isEmission]
        · revert hd
          cases getField data (strD "thoughtSummary") with
          | none => simp
          | some u =>
            split <;> simp_all [isEmission]
  · rw [if_neg h1] at h
    simp at h

/-- The whole decode loop emits only data events. -/
theorem loopEvents_emission (chunks : List (List Nat)) :
    ∀ ev ∈ loopEvents chunks, isEmission ev = true := by
  intro ev h
  rw [loopEvents_eq] at h
  rw [List.mem_flatMap] at h
  obtain ⟨line, -, hline⟩ := h
  exact lineEvents_emission line ev hline

theorem emission_not_terminal (ev : StreamEvent) (h : isEmission ev = true) :
    isTerminal ev = false := by
  cases ev <;> simp_all [isEmission, isTerminal]

theorem streamGeminiChat_ok (status : Nat) (body : Option BodyStream) :
    streamGeminiChat (.ok status body)
      = if 200 ≤ status ∧ status ≤ 299 then
          match body with
          | none => [StreamEvent.error (strD "No response body")]
          | some bs =>
            match bs.ending with
            | .done => loopEvents bs.chunks ++ [.complete]
            | .thrown t => loopEvents bs.chunks ++ [.error (errMsg t)]
        else [.error (strD "HTTP error! status: " ++ strD (toString status))] := rfl

theorem streamGeminiChat_ok_done (status : Nat) (chunks : List (List Nat))
    (h : 200 ≤ status ∧ status ≤ 299) :
    streamGeminiChat (.ok status (some ⟨chunks, .done⟩))
      = loopEvents chunks ++ [.complete] := by
  rw [streamGeminiChat_ok, if_pos h]

theorem streamGeminiChat_ok_thrown (status : Nat) (chunks : List (List Nat)) (t : Thrown)
    (h : 200 ≤ status ∧ status ≤ 299) :
    streamGeminiChat (.ok status (some ⟨chunks, .thrown t⟩))
      = loopEvents chunks ++ [.error (errMsg t)] := by
  rw [streamGeminiChat_ok, if_pos h]

end SSE

namespace CommandParser

/-- The result of `Command.execute` / `CommandParser.parse`
(src/unnamed/part_000, lines 11-14): a cleaned prompt plus option flags.
Option values are opaque to the parser (`unknown` in the source); the
options object is modelled as an association list observed through
`List.lookup`. -/
structure CommandResult (α : Type) where
  cleanedPrompt : String
  options : List (String × α)

/-- A registered command (src/unnamed/part_000, lines 6-9). -/
structure Command (α : Type) where
  name : String
  execute : String → CommandResult α

/-- JS `Map.set`: overwrite in place when the key exists, else append;
insertion order is preserved. -/
def mapSet {α : Type} (m : List (String × Command α)) (k : String) (c : Command α) :
    List (String × Command α) :=
  if m.any (fun p => p.1 == k) then
    m.map (fun p => if p.1 == k then (k, c) else p)
  else m ++ [(k, c)]

/-- Object spread `{ ...a, ...b }` as observed through key lookup: `b`'s
binding for a key overwrites `a`'s. -/
def spreadOpts {α : Type} (a b : List (String × α)) : List (String × α) :=
  a.filter (fun p => (b.lookup p.1).isNone) ++ b

/-- JS `hay.includes(pat)`: `pat` occurs as a contiguous substring. -/
def jsIncludes : List Char → List Char → Bool
  | hay, pat =>
    pat.isPrefixOf hay ||
      match hay with
      | [] => false
      | _ :: rest => jsIncludes rest pat

/-- `CommandParser.parse` (src/unnamed/part_000, lines 41-59): fold over the
registered commands in insertion order; a command whose trigger occurs in
the original prompt replaces the accumulated cleaned prompt by its own
result on the original prompt and spreads its options over the accumulated
ones. -/
def parse {α : Type} (commands : List (String × Command α)) (prompt : String) :
    CommandResult α :=
  commands.foldl
    (fun result tc =>
      if jsIncludes prompt.data tc.1.data then
        { cleanedPrompt := (tc.2.execute prompt).cleanedPrompt,
          options := spreadOpts result.options (tc.2.execute prompt).options }
      else result)
    { cleanedPrompt := prompt, options := [] }

/-- JS whitespace (the class `\s`, also used by `trim`). -/
def isJsWs (c : Char) : Bool :=
  c == ' ' || c == '\t' || c == '\n' || c == '\r' ||
  c.toNat == 11 || c.toNat == 12 || c.toNat == 160 || c.toNat == 0x1680 ||
  (0x2000 ≤ c.toNat && c.toNat ≤ 0x200A) || c.toNat == 0x2028 || c.toNat == 0x2029 ||
  c.toNat == 0x202F || c.toNat == 0x205F || c.toNat == 0x3000 || c.toNat == 0xFEFF

/-- A match of the pattern `\s*\/web\s*` (case-insensitive) starting at the
head of the input: returns the input after the match. -/
def matchWebAt (l : List Char) : Option (List Char) :=
  match l.dropWhile isJsWs with
  | c1 :: c2 :: c3 :: c4 :: rest =>
    if c1 == '/' && c2.toLower == 'w' && c3.toLower == 'e' && c4.toLower == 'b' then
      some (rest.dropWhile isJsWs)
    else none
  | _ => none

/-- Global replacement of `/\s*\/web\s*/gi` by the empty string: scan left
to right, removing each leftmost match and resuming after it. -/
def stripWeb : Nat → List Char → List Char
  | 0, l => l
  | _, [] => []
  | fuel + 1, c :: rest =>
    match matchWebAt (c :: rest) with
    | some rem => stripWeb fuel rem
    | none => c :: stripWeb fuel rest

/-- `String.prototype.trim`. -/
def jsTrim (l : List Char) : List Char :=
  ((l.dropWhile isJsWs).reverse.dropWhile isJsWs).reverse

/-- The `/web` command registered by `registerDefaultCommands`
(src/unnamed/part_000, lines 23-35): strip every `\s*\/web\s*` match from
the prompt, trim, and set `useWebSearch: true`. -/
def webCommand : Command Bool where
  name := "web"
  execute := fun prompt =>
    { cleanedPrompt := String.mk (jsTrim (stripWeb prompt.data.length prompt.data)),
      options := [("useWebSearch", true)] }

/-- The registry built by the `CommandParser` constructor. -/
def defaultCommands : List (String × Command Bool) := mapSet [] "/web" webCommand

theorem lookup_spreadOpts {α : Type} (a b : List (String × α)) (k : String) :
    (spreadOpts a b).lookup k = (b.lookup k).or (a.lookup k) := by
  induction a with
  | nil => simp [spreadOpts]
  | cons p a2 ih =>
    obtain ⟨k1, v1⟩ := p
    simp only [spreadOpts, List.filter_cons] at ih ⊢
    by_cases hk : k = k1
    · subst hk
      cases hb : b.lookup k with
      | some v => simp [hb, List.lookup, ih, hb]
      | none => simp [hb, List.lookup, ih, hb]
    · have hbeq : (k == k1) = false := by simp [hk]
      cases hb : b.lookup k1 with
      | some v => simp [hb, List.lookup, hbeq, ih]
      | none => simp [hb, List.lookup, hbeq, ih]

/-- Only the matched commands affect `parse`. -/
theorem parse_eq_foldl_matched {α : Type} (commands : List (String × Command α))
    (prompt : String) :
    parse commands prompt
      = (commands.filter (fun tc => jsIncludes prompt.data tc.1.data)).foldl
          (fun result tc =>
            { cleanedPrompt := (tc.2.execute prompt).cleanedPrompt,
              options := spreadOpts result.options (tc.2.execute prompt).options })
          { cleanedPrompt := prompt, options := [] } := by
  unfold parse
  generalize ({ cleanedPrompt := prompt, options := [] } : CommandResult α) = init
  induction commands generalizing init with
  | nil => rfl
  | cons tc rest ih =>
    by_cases h : jsIncludes prompt.data tc.1.data
    · simp [List.filter_cons, h, ih]
    · simp [List.filter_cons, h, ih]

/-- Key lookup through the unconditional fold: the last command that binds
the key wins, with the initial options as fallback. -/
theorem foldl_options_lookup {α : Type} (prompt k : String)
    (ms : List (String × Command α)) (init : CommandResult α) :
    ((ms.foldl
        (fun result tc =>
          { cleanedPrompt := (tc.2.execute prompt).cleanedPrompt,
            options := spreadOpts result.options (tc.2.execute prompt).options })
        init).options).lookup k
      = (ms.reverse.findSome?
            (fun tc => ((tc.2.execute prompt).options).lookup k)).or
          ((init.options).lookup k) := by
  induction ms using List.reverseRecOn with
  | nil => simp
  | append_singleton ms m ih =>
    rw [List.foldl_append]
    simp only [List.foldl_cons, List.foldl_nil]
    rw [lookup_spreadOpts, ih, List.reverse_append]
    cases hm : ((m.2.execute prompt).options).lookup k <;>
      simp [List.findSome?_cons, hm, Option.or_assoc]

/-- Removal of the first occurrence of a pattern, used by the test command
below. -/
def stripFirst (pat : List Char) : Nat → List Char → List Char
  | 0, l => l
  | _, [] => []
  | fuel + 1, c :: rest =>
    if pat.isPrefixOf (c :: rest) then (c :: rest).drop pat.length
    else c :: stripFirst pat fuel rest

/-- A second command used as input data: it strips the first occurrence of
its trigger `/foo` from the prompt and sets a flag. -/
def fooCommand : Command Bool where
  name := "foo"
  execute := fun prompt =>
    { cleanedPrompt := String.mk (stripFirst "/foo".data prompt.data.length prompt.data),
      options := [("useFoo", true)] }

/-- The registry after `registerCommand("/foo", fooCommand)` on the default
parser. -/
def twoCommands : List (String × Command Bool) := mapSet defaultCommands "/foo" fooCommand

end CommandParser

/-! ## The claims -/

open SSE CommandParser

/-- C1: For every logical SSE byte stream (the UTF-8 encoding of a code-point
sequence) and every way of splitting it into chunks — including splits
mid-line and mid-multi-byte-character — the token values passed to `onToken`
by the decode loop of `streamGeminiChat` are the same as when the stream is
delivered as one single chunk; in particular their concatenation is the
same. -/
theorem C1_chunk_split_invariance (cs : List Nat) (chunks : List (List Nat))
    (hj : chunks.flatten = utf8Encode cs) :
    tokenPayloads (streamGeminiChat (.ok 200 (some ⟨chunks, .done⟩)))
      = tokenPayloads (streamGeminiChat (.ok 200 (some ⟨[utf8Encode cs], .done⟩))) := by
  have h200 : 200 ≤ 200 ∧ 200 ≤ 299 := by omega
  rw [streamGeminiChat_ok_done 200 chunks h200,
    streamGeminiChat_ok_done 200 [utf8Encode cs] h200]
  have h : loopEvents chunks = loopEvents [utf8Encode cs] := by
    rw [loopEvents_eq, loopEvents_eq, hj]
    simp
  rw [h]

/-- C1 witness: the stream `data: \x7b"text":"é"\x7d\n` split in the middle
of the two-byte character `é`. -/
theorem C1_chunk_split_invariance_witness :
    ([(utf8Encode (strD "data: \x7b\"text\":\"é\"\x7d\n")).take 16,
      (utf8Encode (strD "data: \x7b\"text\":\"é\"\x7d\n")).drop 16].flatten
        = utf8Encode (strD "data: \x7b\"text\":\"é\"\x7d\n"))
    ∧ tokenPayloads (streamGeminiChat (.ok 200 (some
        ⟨[(utf8Encode (strD "data: \x7b\"text\":\"é\"\x7d\n")).take 16,
          (utf8Encode (strD "data: \x7b\"text\":\"é\"\x7d\n")).drop 16], .done⟩)))
        = tokenPayloads (streamGeminiChat (.ok 200 (some
            ⟨[utf8Encode (strD "data: \x7b\"text\":\"é\"\x7d\n")], .done⟩))) := by
  have hj : [(utf8Encode (strD "data: \x7b\"text\":\"é\"\x7d\n")).take 16,
      (utf8Encode (strD "data: \x7b\"text\":\"é\"\x7d\n")).drop 16].flatten
        = utf8Encode (strD "data: \x7b\"text\":\"é\"\x7d\n") := by
    simp [List.take_append_drop]
  exact ⟨hj, C1_chunk_split_invariance _ _ hj⟩

/-- C2: when the abort signal fires mid-stream, the pending read rejects with
the abort's raised value: after the events already emitted, the only further
event is the single error carrying that value — no token, metadata, thinking
or thought-summary event follows — and when reading instead ends without the
abort raising anything, `onComplete` fires and `onError` is never invoked. -/
theorem C2_abort_mid_stream (status : Nat) (chunks : List (List Nat)) (t : Thrown)
    (h : 200 ≤ status ∧ status ≤ 299) :
    (streamGeminiChat (.ok status (some ⟨chunks, .thrown t⟩))).drop
        (loopEvents chunks).length
      = [.error (errMsg t)]
    ∧ (∀ ev ∈ (streamGeminiChat (.ok status (some ⟨chunks, .thrown t⟩))).drop
          (loopEvents chunks).length, isEmission ev = false)
    ∧ streamGeminiChat (.ok status (some ⟨chunks, .done⟩))
        = loopEvents chunks ++ [.complete]
    ∧ ∀ m : List Nat,
        StreamEvent.error m ∉ streamGeminiChat (.ok status (some ⟨chunks, .done⟩)) := by
  have hd := streamGeminiChat_ok_done status chunks h
  have ht := streamGeminiChat_ok_thrown status chunks t h
  refine ⟨?_, ?_, hd, ?_⟩
  · rw [ht, List.drop_left]
  · rw [ht, List.drop_left]
    intro ev hev
    simp only [List.mem_singleton] at hev
    subst hev
    rfl
  · intro m hm
    rw [hd] at hm
    rcases List.mem_append.mp hm with hm1 | hm2
    · have := loopEvents_emission chunks _ hm1
      simp [isEmission] at this
    · simp at hm2

/-- C2 witness: a concrete aborted stream after one delivered chunk. -/
theorem C2_abort_mid_stream_witness :
    (200 ≤ 200 ∧ 200 ≤ 299)
    ∧ ((streamGeminiChat (.ok 200 (some ⟨[utf8Encode (strD "data: \x7b\"text\":\"hi\"\x7d\n")],
          .thrown (.jsError (strD "AbortError"))⟩))).drop
          (loopEvents [utf8Encode (strD "data: \x7b\"text\":\"hi\"\x7d\n")]).length
        = [.error (errMsg (.jsError (strD "AbortError")))]
      ∧ (∀ ev ∈ (streamGeminiChat (.ok 200 (some ⟨[utf8Encode (strD "data: \x7b\"text\":\"hi\"\x7d\n")],
            .thrown (.jsError (strD "AbortError"))⟩))).drop
            (loopEvents [utf8Encode (strD "data: \x7b\"text\":\"hi\"\x7d\n")]).length,
            isEmission ev = false)
      ∧ streamGeminiChat (.ok 200 (some ⟨[utf8Encode (strD "data: \x7b\"text\":\"hi\"\x7d\n")], .done⟩))
          = loopEvents [utf8Encode (strD "data: \x7b\"text\":\"hi\"\x7d\n")] ++ [.complete]
      ∧ ∀ m : List Nat,
          StreamEvent.error m ∉ streamGeminiChat (.ok 200 (some
            ⟨[utf8Encode (strD "data: \x7b\"text\":\"hi\"\x7d\n")], .done⟩))) :=
  ⟨by omega, C2_abort_mid_stream 200 _ _ (by omega)⟩

/-- C3: a non-OK HTTP status yields exactly one event, an error whose message
ends with the decimal status code, and `onToken` is never invoked. -/
theorem C3_http_error (status : Nat) (body : Option BodyStream)
    (h : ¬ (200 ≤ status ∧ status ≤ 299)) :
    streamGeminiChat (.ok status body)
      = [.error (strD "HTTP error! status: " ++ strD (toString status))]
    ∧ strD (toString status) <:+ strD "HTTP error! status: " ++ strD (toString status)
    ∧ ∀ t : Json, StreamEvent.token t ∉ streamGeminiChat (.ok status body) := by
  have heq : streamGeminiChat (.ok status body)
      = [.error (strD "HTTP error! status: " ++ strD (toString status))] := by
    rw [streamGeminiChat_ok, if_neg h]
  refine ⟨heq, List.suffix_append _ _, ?_⟩
  intro t hmem
  rw [heq] at hmem
  simp at hmem

/-- C3 witness: HTTP status 500. -/
theorem C3_http_error_witness :
    (¬ (200 ≤ 500 ∧ 500 ≤ 299))
    ∧ (streamGeminiChat (.ok 500 none)
        = [.error (strD "HTTP error! status: " ++ strD (toString 500))]
      ∧ strD (toString 500) <:+ strD "HTTP error! status: " ++ strD (toString 500)
      ∧ ∀ t : Json, StreamEvent.token t ∉ streamGeminiChat (.ok 500 none)) :=
  ⟨by omega, C3_http_error 500 none (by omega)⟩

/-- C4: a complete `data: ` line whose payload is not valid JSON produces no
event, and the surrounding lines are processed exactly as if the bad line
were absent. -/
theorem C4_invalid_json_skipped (line : List Nat) (pre post : List (List Nat))
    (h1 : (strD "data: ").isPrefixOf line = true)
    (h2 : jsonParse (line.drop 6) = none) :
    lineEvents line = []
    ∧ (pre ++ [line] ++ post).flatMap lineEvents = (pre ++ post).flatMap lineEvents := by
  have hl : lineEvents line = [] := by
    unfold lineEvents
    rw [if_pos h1]
    dsimp only
    by_cases he : (line.drop 6).isEmpty
    · rw [if_pos he]
    · rw [if_neg he, h2]
  exact ⟨hl, by simp [hl]⟩

/-- C4 witness: the malformed line `data: \x7boops` between two other lines. -/
theorem C4_invalid_json_skipped_witness :
    ((strD "data: ").isPrefixOf (strD "data: \x7boops") = true)
    ∧ (jsonParse ((strD "data: \x7boops").drop 6) = none)
    ∧ (lineEvents (strD "data: \x7boops") = []
      ∧ ([strD "x"] ++ [strD "data: \x7boops"] ++ [strD "data: \x7b\"text\":\"ok\"\x7d"]).flatMap
            lineEvents
          = ([strD "x"] ++ [strD "data: \x7b\"text\":\"ok\"\x7d"]).flatMap lineEvents) :=
  ⟨rfl, rfl, C4_invalid_json_skipped _ _ _ rfl rfl⟩

/-- C5: when the reader reports completion, only the complete lines of the
decoded stream were ever processed — the trailing partial segment held in the
buffer is discarded without producing an event — and `onComplete` is
invoked. -/
theorem C5_done_discards_partial (status : Nat) (chunks : List (List Nat))
    (h : 200 ≤ status ∧ status ≤ 299) :
    streamGeminiChat (.ok status (some ⟨chunks, .done⟩))
      = (splitNL (decodeCore chunks.flatten).1).dropLast.flatMap lineEvents
          ++ [.complete] := by
  rw [streamGeminiChat_ok_done status chunks h, loopEvents_eq]

/-- C5 witness: a stream ending in an unterminated partial line. -/
theorem C5_done_discards_partial_witness :
    (200 ≤ 200 ∧ 200 ≤ 299)
    ∧ streamGeminiChat (.ok 200 (some
        ⟨[utf8Encode (strD "data: \x7b\"text\":\"a\"\x7d\ndata: \x7b\"par")], .done⟩))
      = (splitNL (decodeCore ([utf8Encode
            (strD "data: \x7b\"text\":\"a\"\x7d\ndata: \x7b\"par")] : List (List Nat)).flatten).1).dropLast.flatMap
            lineEvents
          ++ [.complete] :=
  ⟨by omega, C5_done_discards_partial 200 _ (by omega)⟩

/-- C6: a complete line that does not start with `data: ` produces no event
at all. -/
theorem C6_non_data_line (line : List Nat)
    (h : (strD "data: ").isPrefixOf line = false) :
    lineEvents line = [] := by
  unfold lineEvents
  rw [if_neg (by simp [h])]

/-- C6 witness: the line `event: x`. -/
theorem C6_non_data_line_witness :
    ((strD "data: ").isPrefixOf (strD "event: x") = false)
    ∧ lineEvents (strD "event: x") = [] :=
  ⟨rfl, C6_non_data_line _ rfl⟩

/-- C7: the stream `data: \x7b"text":"Hel"\x7d\n\ndata: \x7b"text":"lo"\x7d\n\n`
produces the token `"Hel"`, then the token `"lo"`, then completion. -/
theorem C7_example_stream :
    streamGeminiChat (.ok 200 (some
        ⟨[utf8Encode (strD "data: \x7b\"text\":\"Hel\"\x7d\n\ndata: \x7b\"text\":\"lo\"\x7d\n\n")],
         .done⟩))
      = [.token (.str (strD "Hel")), .token (.str (strD "lo")), .complete] := rfl

/-- C9: every run emits exactly one terminal event — a completion or an
error, never both — and it is the last event emitted. -/
theorem C9_single_terminal (r : FetchResult) :
    ∃ evs t, streamGeminiChat r = evs ++ [t]
      ∧ isTerminal t = true
      ∧ ∀ ev ∈ evs, isTerminal ev = false := by
  cases r with
  | rejected t => exact ⟨[], .error (errMsg t), rfl, rfl, by simp⟩
  | ok status body =>
    by_cases h : 200 ≤ status ∧ status ≤ 299
    · match body with
      | none =>
        refine ⟨[], .error (strD "No response body"), ?_, rfl, by simp⟩
        rw [streamGeminiChat_ok, if_pos h]
        rfl
      | some ⟨chunks, .done⟩ =>
        refine ⟨loopEvents chunks, .complete,
          streamGeminiChat_ok_done status chunks h, rfl, ?_⟩
        intro ev hev
        exact emission_not_terminal ev (loopEvents_emission chunks ev hev)
      | some ⟨chunks, .thrown t⟩ =>
        refine ⟨loopEvents chunks, .error (errMsg t),
          streamGeminiChat_ok_thrown status chunks t h, rfl, ?_⟩
        intro ev hev
        exact emission_not_terminal ev (loopEvents_emission chunks ev hev)
    · refine ⟨[], .error (strD "HTTP error! status: " ++ strD (toString status)), ?_, rfl,
        by simp⟩
      rw [streamGeminiChat_ok, if_neg h]
      rfl

/-- C10 as stated is false: the payload `\x7b"text":5\x7d` is truthy, so
`onToken` is invoked with the number `5`, which is not a (non-empty)
string. -/
theorem C10_token_counterexample :
    streamGeminiChat (.ok 200 (some
        ⟨[utf8Encode (strD "data: \x7b\"text\":5\x7d\n")], .done⟩))
      = [.token (.num false [5] [] false []), .complete]
    ∧ ∀ s : List Nat, Json.num false [5] [] false [] ≠ Json.str s := by
  refine ⟨rfl, ?_⟩
  intro s h
  cases h

/-- C10 amended: a `data: ` line whose payload parses with a falsy `text`
field (absent, empty string, zero, false or null) emits no token event, and
every token event carries a truthy value — so a string payload is never the
empty string, but the payload need not be a string. -/
theorem C10_token_amended (line : List Nat) (data : Json)
    (h1 : jsonParse (line.drop 6) = some data)
    (h2 : truthyOpt (getField data (strD "text")) = false) :
    (∀ t : Json, StreamEvent.token t ∉ lineEvents line)
    ∧ ∀ (l : List Nat) (t : Json), StreamEvent.token t ∈ lineEvents l → truthy t = true := by
  constructor
  · intro t ht
    obtain ⟨data2, hj2, hf2, htr⟩ := token_mem_lineEvents line t ht
    rw [h1] at hj2
    injection hj2 with hdd
    subst hdd
    rw [hf2] at h2
    simp only [truthyOpt] at h2
    rw [htr] at h2
    cases h2
  · intro l t ht
    obtain ⟨-, -, -, htr⟩ := token_mem_lineEvents l t ht
    exact htr

/-- C10 witness: the line `data: \x7b"text":""\x7d` emits no token. -/
theorem C10_token_amended_witness :
    (jsonParse ((strD "data: \x7b\"text\":\"\"\x7d").drop 6)
        = some (Json.obj [(strD "text", Json.str [])]))
    ∧ (truthyOpt (getField (Json.obj [(strD "text", Json.str [])]) (strD "text")) = false)
    ∧ ((∀ t : Json, StreamEvent.token t ∉ lineEvents (strD "data: \x7b\"text\":\"\"\x7d"))
      ∧ ∀ (l : List Nat) (t : Json),
          StreamEvent.token t ∈ lineEvents l → truthy t = true) :=
  ⟨rfl, rfl, C10_token_amended _ _ rfl rfl⟩

/-- C8 as stated is false: with a second registered command, both triggers
match, but the cleaned prompt is the last matched command's result on the
original prompt, so the earlier matched trigger `/web` is not stripped. -/
theorem C8_parse_counterexample :
    jsIncludes "/web /foo hi".data "/web".data = true
    ∧ ("/web", webCommand) ∈ twoCommands
    ∧ jsIncludes (parse twoCommands "/web /foo hi").cleanedPrompt.data "/web".data = true :=
  ⟨rfl, List.mem_cons_self _ _, rfl⟩

/-- C8 amended: when at least one registered trigger occurs in the prompt,
`parse` returns the cleaned prompt produced by the `last` matched command
applied to the original prompt (earlier matched commands' stripping is
discarded), and for each option key the value set by the last matched
command that binds it — later-matched options overwrite earlier ones. -/
theorem C8_parse_amended {α : Type} (commands : List (String × Command α)) (prompt : String)
    (h : commands.filter (fun tc => jsIncludes prompt.data tc.1.data) ≠ []) :
    (parse commands prompt).cleanedPrompt
      = (((commands.filter (fun tc => jsIncludes prompt.data tc.1.data)).getLast h).2.execute
            prompt).cleanedPrompt
    ∧ ∀ k : String,
        ((parse commands prompt).options).lookup k
          = ((commands.filter (fun tc => jsIncludes prompt.data tc.1.data)).reverse).findSome?
              (fun tc => ((tc.2.execute prompt).options).lookup k) := by
  constructor
  · rw [parse_eq_foldl_matched]
    conv_lhs => rw [← List.dropLast_append_getLast h]
    rw [List.foldl_append]
    rfl
  · intro k
    rw [parse_eq_foldl_matched, foldl_options_lookup]
    simp

/-- C8 amended witness: both `/web` and `/foo` match; the cleaned prompt is
`fooCommand`'s result on the original prompt. -/
theorem C8_parse_amended_witness :
    (twoCommands.filter (fun tc => jsIncludes "/web /foo hi".data tc.1.data) ≠ [])
    ∧ (parse twoCommands "/web /foo hi").cleanedPrompt
        = (fooCommand.execute "/web /foo hi").cleanedPrompt
    ∧ ∀ k : String,
        ((parse twoCommands "/web /foo hi").options).lookup k
          = ((twoCommands.filter
                (fun tc => jsIncludes "/web /foo hi".data tc.1.data)).reverse).findSome?
              (fun tc => ((tc.2.execute "/web /foo hi").options).lookup k) := by
  have h : twoCommands.filter (fun tc => jsIncludes "/web /foo hi".data tc.1.data) ≠ [] :=
    List.cons_ne_nil _ _
  obtain ⟨h1, h2⟩ := C8_parse_amended twoCommands "/web /foo hi" h
  refine ⟨h, ?_, h2⟩
  rw [h1]
  rfl
